import Mathlib

/-!
Verification of the tic-tac-toe board core of `src/tictactoe/main.py`.

The Python module is shallowly embedded: the frozen dataclass `Board`
(fields `moves_x`, `moves_o`, `x_turn`) becomes a Lean structure over
`Finset ℕ`; the pure methods `legal_moves`, `winner`, `is_active` and
`with_move` become Lean functions, with the `ValueError` raised by
`with_move` modelled as `Except.error`.  The game loop's repeated
`self.board = self.board.with_move(move)` is modelled by `playMoves`,
which threads a list of requested cells through `with_move`.
-/

namespace TicTacToe

/-- `BOARD_SIZE: Final = 3` from main.py. -/
def BOARD_SIZE : ℕ := 3

/-- The two player marks `"X"` and `"O"`; an empty cell `" "` is `none`
in `Option Player`. -/
inductive Player where
  | X
  | O
deriving DecidableEq, Repr

/-- `_generate_win_conditions()` from main.py: for each `i < BOARD_SIZE`
the row `range(i*3, (i+1)*3)` and the column `range(i, 9, 3)`, then the
diagonal `range(0, 9, 4)` and the anti-diagonal `range(2, 8, 2)`, each
`range` expanded to its three elements. -/
def generate_win_conditions : List (ℕ × ℕ × ℕ) :=
  ((List.range BOARD_SIZE).flatMap fun i =>
    [(i * BOARD_SIZE, i * BOARD_SIZE + 1, i * BOARD_SIZE + 2),
     (i, i + BOARD_SIZE, i + BOARD_SIZE + BOARD_SIZE)])
  ++ [(0, BOARD_SIZE + 1, (BOARD_SIZE + 1) * 2),
      (BOARD_SIZE - 1, (BOARD_SIZE - 1) * 2, (BOARD_SIZE - 1) * 3)]

/-- `WIN_CONDITIONS: Final = _generate_win_conditions()` from main.py. -/
def WIN_CONDITIONS : List (ℕ × ℕ × ℕ) := generate_win_conditions

/-- The frozen dataclass `Board` from main.py: frozensets of claimed
indices for each player and whose move is next. -/
structure Board where
  moves_x : Finset ℕ := ∅
  moves_o : Finset ℕ := ∅
  x_turn : Bool := true
deriving DecidableEq

/-- `Board()` — the empty starting board built from the dataclass defaults. -/
def Board.start : Board := {}

/-- One step of `Board.__iter__` from main.py: the mark at index `idx`
(`"X"` if claimed by X, else `"O"` if claimed by O, else the blank `" "`,
here `none`). -/
def Board.cell (b : Board) (idx : ℕ) : Option Player :=
  if idx ∈ b.moves_x then some Player.X
  else if idx ∈ b.moves_o then some Player.O
  else none

/-- `Board.legal_moves` from main.py: the indices `i` below
`len(self) = BOARD_SIZE**2` with `i not in self.moves_x | self.moves_o`. -/
def Board.legal_moves (b : Board) : Finset ℕ :=
  (Finset.range (BOARD_SIZE ^ 2)).filter fun i => i ∉ b.moves_x ∪ b.moves_o

/-- The loop body of `Board.winner` from main.py: scan the win conditions
in order and return the mark of the first line whose three cells hold the
same non-blank mark. -/
def winnerGo (b : Board) : List (ℕ × ℕ × ℕ) → Option Player
  | [] => none
  | (i, j, k) :: rest =>
    if b.cell i = b.cell j ∧ b.cell j = b.cell k ∧ b.cell k ≠ none then b.cell i
    else winnerGo b rest

/-- `Board.winner` from main.py. -/
def Board.winner (b : Board) : Option Player := winnerGo b WIN_CONDITIONS

/-- `Board.is_active` from main.py:
`self.winner() is None and bool(self.legal_moves())`. -/
def Board.is_active (b : Board) : Bool :=
  b.winner.isNone && decide (b.legal_moves ≠ ∅)

/-- `Board.with_move` from main.py: raise
`ValueError(f"Illegal move {move}")` when the move is not legal, else
claim the cell for the player to move and flip the turn. -/
def Board.with_move (b : Board) (move : ℕ) : Except String Board :=
  if move ∉ b.legal_moves then
    Except.error ("Illegal move " ++ toString move)
  else if b.x_turn then
    Except.ok { moves_x := b.moves_x ∪ {move}, moves_o := b.moves_o, x_turn := false }
  else
    Except.ok { moves_x := b.moves_x, moves_o := b.moves_o ∪ {move}, x_turn := true }

/-- The game loop's move application from `TicTacToe.play` in main.py,
iterated over a list of requested cells: apply each in turn with
`with_move`, propagating the first `ValueError`. -/
def playMoves (b : Board) : List ℕ → Except String Board
  | [] => Except.ok b
  | m :: ms =>
    match b.with_move m with
    | Except.ok b' => playMoves b' ms
    | Except.error e => Except.error e

/-- A player `p` owns the line `(i, j, k)` on board `b`. -/
def ownsLine (b : Board) (p : Player) (l : ℕ × ℕ × ℕ) : Prop :=
  b.cell l.1 = some p ∧ b.cell l.2.1 = some p ∧ b.cell l.2.2 = some p

instance (b : Board) (p : Player) (l : ℕ × ℕ × ℕ) : Decidable (ownsLine b p l) := by
  unfold ownsLine; infer_instance

deriving instance DecidableEq for Except

/-! ### Helper lemmas -/

lemma mem_legal_moves (b : Board) (i : ℕ) :
    i ∈ b.legal_moves ↔ i ≤ 8 ∧ i ∉ b.moves_x ∧ i ∉ b.moves_o := by
  simp only [Board.legal_moves, BOARD_SIZE, Finset.mem_filter, Finset.mem_range,
    Finset.mem_union, not_or]
  refine and_congr ?_ Iff.rfl
  norm_num
  omega

lemma ownsLine_cond (b : Board) (p : Player) (i j k : ℕ)
    (h : ownsLine b p (i, j, k)) :
    b.cell i = b.cell j ∧ b.cell j = b.cell k ∧ b.cell k ≠ none := by
  obtain ⟨h1, h2, h3⟩ := h
  refine ⟨h1.trans h2.symm, h2.trans h3.symm, ?_⟩
  simp [h3]

lemma cond_ownsLine (b : Board) (i j k : ℕ)
    (h1 : b.cell i = b.cell j) (h2 : b.cell j = b.cell k) (h3 : b.cell k ≠ none) :
    ∃ p, b.cell i = some p ∧ ownsLine b p (i, j, k) := by
  obtain ⟨p, hk⟩ := Option.ne_none_iff_exists'.mp h3
  exact ⟨p, by rw [h1, h2, hk], by rw [h1, h2, hk], by rw [h2, hk], hk⟩

lemma winnerGo_eq_some (b : Board) (L : List (ℕ × ℕ × ℕ)) (p : Player)
    (h : winnerGo b L = some p) : ∃ l ∈ L, ownsLine b p l := by
  induction L with
  | nil => simp [winnerGo] at h
  | cons hd tl ih =>
    obtain ⟨i, j, k⟩ := hd
    rw [winnerGo] at h
    split at h
    case isTrue hc =>
      obtain ⟨h1, h2, h3⟩ := hc
      obtain ⟨q, hq, hown⟩ := cond_ownsLine b i j k h1 h2 h3
      rw [hq] at h
      obtain rfl : q = p := by injection h
      exact ⟨(i, j, k), List.mem_cons_self _ _, hown⟩
    case isFalse hc =>
      obtain ⟨l, hl, hp⟩ := ih h
      exact ⟨l, List.mem_cons_of_mem _ hl, hp⟩

lemma winnerGo_eq_none (b : Board) (L : List (ℕ × ℕ × ℕ)) :
    winnerGo b L = none ↔ ∀ p, ∀ l ∈ L, ¬ ownsLine b p l := by
  induction L with
  | nil => simp [winnerGo]
  | cons hd tl ih =>
    obtain ⟨i, j, k⟩ := hd
    rw [winnerGo]
    split
    case isTrue hc =>
      obtain ⟨h1, h2, h3⟩ := hc
      obtain ⟨q, hq, hown⟩ := cond_ownsLine b i j k h1 h2 h3
      constructor
      · intro habs
        rw [hq] at habs
        cases habs
      · intro hall
        exact absurd hown (hall q (i, j, k) (List.mem_cons_self _ _))
    case isFalse hc =>
      rw [ih]
      constructor
      · intro hall p l hl
        rcases List.mem_cons.mp hl with heq | hl'
        · subst heq
          intro hown
          exact hc (ownsLine_cond b p i j k hown)
        · exact hall p l hl'
      · intro hall p l hl
        exact hall p l (List.mem_cons_of_mem _ hl)

lemma with_move_ok_cases (b : Board) (m : ℕ) (b' : Board)
    (h : b.with_move m = Except.ok b') :
    m ∈ b.legal_moves ∧
      ((b.x_turn = true ∧ b'.moves_x = b.moves_x ∪ {m} ∧ b'.moves_o = b.moves_o ∧
          b'.x_turn = false) ∨
        (b.x_turn = false ∧ b'.moves_x = b.moves_x ∧ b'.moves_o = b.moves_o ∪ {m} ∧
          b'.x_turn = true)) := by
  rw [Board.with_move] at h
  split at h
  case isTrue => cases h
  case isFalse hm =>
    refine ⟨not_not.mp hm, ?_⟩
    split at h
    case isTrue ht =>
      obtain rfl : _ = b' := by injection h
      exact Or.inl ⟨ht, rfl, rfl, rfl⟩
    case isFalse ht =>
      obtain rfl : _ = b' := by injection h
      exact Or.inr ⟨Bool.not_eq_true _ ▸ ht, rfl, rfl, rfl⟩

/-! ### Concrete boards used by the scenario claims -/

/-- The board after the single opening move 0 (X claims cell 0). -/
def boardAfter0 : Board := { moves_x := {0}, moves_o := ∅, x_turn := false }

/-- The board reached by the moves [0, 4, 1]: X holds {0, 1}, O holds {4}. -/
def boardC6 : Board := { moves_x := {0, 1}, moves_o := {4}, x_turn := false }

/-- The board reached by the moves [0, 3, 1, 4, 2]: X owns the top row
{0, 1, 2} and has already won, while cells 5, 6, 7, 8 are still free. -/
def wonXBoard : Board := { moves_x := {0, 1, 2}, moves_o := {3, 4}, x_turn := false }

/-- The board reached by the moves [4, 0, 1, 3, 7]: X owns the middle
column {1, 4, 7}. -/
def colWinBoard : Board := { moves_x := {4, 1, 7}, moves_o := {0, 3}, x_turn := false }

/-- The board reached by the moves [0, 1, 2, 3, 4, 5, 6, 8, 7]: the board
is full and X owns the anti-diagonal {2, 4, 6}. -/
def filledBoard : Board :=
  { moves_x := {0, 2, 4, 6, 7}, moves_o := {1, 3, 5, 8}, x_turn := false }

/-- The board reached by the moves [0, 1, 2, 4, 3, 5, 7, 6, 8]: the board
is full and neither player owns a win-line — a genuine draw. -/
def drawBoard : Board :=
  { moves_x := {0, 2, 3, 7, 8}, moves_o := {1, 4, 5, 6}, x_turn := false }

/-! ### Claim theorems -/

/-- C2: `winner` checks exactly the 8 fixed win-lines
{0,1,2},{3,4,5},{6,7,8},{0,3,6},{1,4,7},{2,5,8},{0,4,8},{2,4,6};
whenever it returns a player, that player occupies all three cells of one
of those lines, and it returns `none` exactly when no player owns all
three cells of any line. -/
theorem winner_checks_the_eight_win_lines (b : Board) :
    WIN_CONDITIONS.Perm
        [(0, 1, 2), (3, 4, 5), (6, 7, 8), (0, 3, 6), (1, 4, 7), (2, 5, 8),
          (0, 4, 8), (2, 4, 6)] ∧
      (∀ p, b.winner = some p → ∃ l ∈ WIN_CONDITIONS, ownsLine b p l) ∧
      (b.winner = none ↔ ∀ p, ∀ l ∈ WIN_CONDITIONS, ¬ ownsLine b p l) :=
  ⟨by decide, fun p => winnerGo_eq_some b WIN_CONDITIONS p,
    winnerGo_eq_none b WIN_CONDITIONS⟩

/-- Witness for C2 at the concrete board `colWinBoard`, whose winner is X. -/
theorem winner_checks_the_eight_win_lines_witness :
    ∃ l ∈ WIN_CONDITIONS, ownsLine colWinBoard Player.X l :=
  (winner_checks_the_eight_win_lines colWinBoard).2.1 Player.X (by decide)

/-- C4: applying a cell that is not in `legal_moves` (out of range or
already occupied) fails with the `Illegal move` error; the board, an
immutable value, is untouched. -/
theorem with_move_illegal_errors (b : Board) (m : ℕ) (h : m ∉ b.legal_moves) :
    b.with_move m = Except.error ("Illegal move " ++ toString m) := by
  rw [Board.with_move, if_pos h]

/-- Witness for C4: the opening move 0 succeeds, and playing 0 again on
the resulting board fails with the `Illegal move` error. -/
theorem with_move_illegal_errors_witness :
    playMoves Board.start [0] = Except.ok boardAfter0 ∧
      boardAfter0.with_move 0 = Except.error ("Illegal move " ++ toString 0) :=
  ⟨by decide, with_move_illegal_errors boardAfter0 0 (by decide)⟩

/-- C5: `legal_moves` is exactly the complement, within [0, 8], of the
union of the two players' move sets (and, being a pure function of the
board value, has no side effects). -/
theorem legal_moves_complement (b : Board) :
    b.legal_moves = Finset.range 9 \ (b.moves_x ∪ b.moves_o) := by
  ext i
  rw [mem_legal_moves]
  simp only [Finset.mem_sdiff, Finset.mem_range, Finset.mem_union, not_or]
  constructor
  · rintro ⟨h1, h2, h3⟩
    exact ⟨by omega, h2, h3⟩
  · rintro ⟨h1, h2, h3⟩
    exact ⟨by omega, h2, h3⟩

/-- C8: `is_active` is true exactly when there is no winner and some
legal move remains; consequently a full board with no winner reports
`is_active = false`. -/
theorem is_active_iff_no_winner_and_moves (b : Board) :
    (b.is_active = true ↔ b.winner = none ∧ b.legal_moves.Nonempty) ∧
      (b.legal_moves = ∅ → b.winner = none → b.is_active = false) := by
  constructor
  · simp [Board.is_active, Option.isNone_iff_eq_none, ← Finset.nonempty_iff_ne_empty]
  · intro hfull _
    simp [Board.is_active, hfull]

/-- Witness for C8 at the full drawn board reached by
[0, 1, 2, 4, 3, 5, 7, 6, 8]: no winner, no legal moves, not active. -/
theorem is_active_iff_no_winner_and_moves_witness :
    playMoves Board.start [0, 1, 2, 4, 3, 5, 7, 6, 8] = Except.ok drawBoard ∧
      drawBoard.winner = none ∧ drawBoard.is_active = false :=
  ⟨by decide, by decide,
    (is_active_iff_no_winner_and_moves drawBoard).2 (by decide) (by decide)⟩

/-- C9: applying a cell that is in `legal_moves` succeeds, adds exactly
that cell to the moving player's set, leaves the other player's set
unchanged, flips the turn, and grows the set of occupied cells by exactly
one. -/
theorem with_move_success_frame (b : Board) (m : ℕ) (h : m ∈ b.legal_moves) :
    ∃ b', b.with_move m = Except.ok b' ∧
      b'.x_turn = !b.x_turn ∧
      (b.x_turn = true → b'.moves_x = b.moves_x ∪ {m} ∧ b'.moves_o = b.moves_o) ∧
      (b.x_turn = false → b'.moves_x = b.moves_x ∧ b'.moves_o = b.moves_o ∪ {m}) ∧
      (b'.moves_x ∪ b'.moves_o).card = (b.moves_x ∪ b.moves_o).card + 1 := by
  obtain ⟨-, hmx, hmo⟩ := (mem_legal_moves b m).mp h
  have hnotmem : m ∉ b.moves_x ∪ b.moves_o := by
    simp only [Finset.mem_union]
    tauto
  rw [Board.with_move, if_neg (not_not.mpr h)]
  cases hx : b.x_turn with
  | true =>
    rw [if_pos rfl]
    refine ⟨_, rfl, by simp [hx], fun _ => ⟨rfl, rfl⟩,
      fun hco => by simp [hx] at hco, ?_⟩
    have heq : (b.moves_x ∪ {m}) ∪ b.moves_o = insert m (b.moves_x ∪ b.moves_o) := by
      ext x
      simp only [Finset.mem_union, Finset.mem_singleton, Finset.mem_insert]
      tauto
    rw [heq, Finset.card_insert_of_not_mem hnotmem]
  | false =>
    rw [if_neg (by simp)]
    refine ⟨_, rfl, by simp [hx], fun hct => by simp [hx] at hct,
      fun _ => ⟨rfl, rfl⟩, ?_⟩
    have heq : b.moves_x ∪ (b.moves_o ∪ {m}) = insert m (b.moves_x ∪ b.moves_o) := by
      ext x
      simp only [Finset.mem_union, Finset.mem_singleton, Finset.mem_insert]
      tauto
    rw [heq, Finset.card_insert_of_not_mem hnotmem]

/-- Witness for C9: the opening move 4 on the empty board. -/
theorem with_move_success_frame_witness :
    ∃ b', Board.start.with_move 4 = Except.ok b' ∧
      b'.x_turn = !Board.start.x_turn ∧
      (Board.start.x_turn = true →
        b'.moves_x = Board.start.moves_x ∪ {4} ∧ b'.moves_o = Board.start.moves_o) ∧
      (Board.start.x_turn = false →
        b'.moves_x = Board.start.moves_x ∧ b'.moves_o = Board.start.moves_o ∪ {4}) ∧
      (b'.moves_x ∪ b'.moves_o).card = (Board.start.moves_x ∪ Board.start.moves_o).card + 1 :=
  with_move_success_frame Board.start 4 (by decide)

/-- C7: the moves [4, 0, 1, 3, 7] (X at 4, O at 0, X at 1, O at 3, X at 7)
give X the middle column {1, 4, 7}; `winner` returns X and `is_active`
is false. -/
theorem scenario_first_wins_column :
    playMoves Board.start [4, 0, 1, 3, 7] = Except.ok colWinBoard ∧
      colWinBoard.moves_x = {4, 1, 7} ∧
      ownsLine colWinBoard Player.X (1, 4, 7) ∧
      colWinBoard.winner = some Player.X ∧
      colWinBoard.is_active = false := by
  decide

/-- Counterexample to C1: the board reached by [0, 3, 1, 4, 2] already has
winner X, yet `with_move` still accepts the move 5 — there is no
terminality check in `with_move`. -/
theorem won_board_still_accepts_moves_cex :
    playMoves Board.start [0, 3, 1, 4, 2] = Except.ok wonXBoard ∧
      wonXBoard.winner = some Player.X ∧
      (wonXBoard.with_move 5).isOk = true := by
  decide

/-- C1 as amended: `with_move` checks only membership in `legal_moves`;
a board on which a winner already exists still accepts any unoccupied
in-range cell. -/
theorem with_move_ignores_winner (b : Board) (m : ℕ) (_hw : b.winner ≠ none)
    (hm : m ∈ b.legal_moves) : ∃ b', b.with_move m = Except.ok b' := by
  rw [Board.with_move, if_neg (not_not.mpr hm)]
  split
  · exact ⟨_, rfl⟩
  · exact ⟨_, rfl⟩

/-- Witness for the amended C1 at `wonXBoard` and the free cell 5. -/
theorem with_move_ignores_winner_witness :
    ∃ b', wonXBoard.with_move 5 = Except.ok b' :=
  with_move_ignores_winner wonXBoard 5 (by decide) (by decide)

/-- Counterexample to C3: the moves [0, 1, 2, 3, 4, 5, 6, 8, 7] do fill
the board, but X ends up owning the anti-diagonal {2, 4, 6}, so the winner
is X — not a draw as the claim states. -/
theorem full_sequence_not_a_draw_cex :
    playMoves Board.start [0, 1, 2, 3, 4, 5, 6, 8, 7] = Except.ok filledBoard ∧
      filledBoard.winner = some Player.X := by
  decide

lemma with_move_ok_step (b : Board) (m : ℕ) (b' : Board)
    (h : b.with_move m = Except.ok b') (hdisj : Disjoint b.moves_x b.moves_o) :
    Disjoint b'.moves_x b'.moves_o ∧
      b'.moves_x ∪ b'.moves_o = insert m (b.moves_x ∪ b.moves_o) ∧
      m ≤ 8 ∧ m ∉ b.moves_x ∪ b.moves_o ∧
      b.moves_x ⊆ b'.moves_x ∧ b.moves_o ⊆ b'.moves_o := by
  obtain ⟨hm, hcase⟩ := with_move_ok_cases b m b' h
  obtain ⟨hm8, hmx, hmo⟩ := (mem_legal_moves b m).mp hm
  have hnotmem : m ∉ b.moves_x ∪ b.moves_o := by
    simp only [Finset.mem_union]
    tauto
  rcases hcase with ⟨-, hx, ho, -⟩ | ⟨-, hx, ho, -⟩
  · refine ⟨?_, ?_, hm8, hnotmem, ?_, ?_⟩
    · rw [hx, ho, Finset.disjoint_union_left]
      exact ⟨hdisj, by simp [hmo]⟩
    · rw [hx, ho]
      ext x
      simp only [Finset.mem_union, Finset.mem_singleton, Finset.mem_insert]
      tauto
    · rw [hx]
      exact Finset.subset_union_left
    · rw [ho]
  · refine ⟨?_, ?_, hm8, hnotmem, ?_, ?_⟩
    · rw [hx, ho, Finset.disjoint_union_right]
      exact ⟨hdisj, by simp [hmx]⟩
    · rw [hx, ho]
      ext x
      simp only [Finset.mem_union, Finset.mem_singleton, Finset.mem_insert]
      tauto
    · rw [hx]
    · rw [ho]
      exact Finset.subset_union_left

lemma playMoves_preserves (ms : List ℕ) (b0 b : Board)
    (h : playMoves b0 ms = Except.ok b)
    (hdisj : Disjoint b0.moves_x b0.moves_o)
    (hbound : ∀ i ∈ b0.moves_x ∪ b0.moves_o, i ≤ 8) :
    Disjoint b.moves_x b.moves_o ∧
      (∀ i ∈ b.moves_x ∪ b.moves_o, i ≤ 8) ∧
      (b.moves_x ∪ b.moves_o).card = (b0.moves_x ∪ b0.moves_o).card + ms.length := by
  induction ms generalizing b0 with
  | nil =>
    rw [playMoves] at h
    obtain rfl : b0 = b := by injection h
    exact ⟨hdisj, hbound, by simp⟩
  | cons m ms ih =>
    rw [playMoves] at h
    cases hwm : b0.with_move m with
    | error e =>
      rw [hwm] at h
      cases h
    | ok b1 =>
      rw [hwm] at h
      obtain ⟨hd1, hu1, hm8, hmem, -, -⟩ := with_move_ok_step b0 m b1 hwm hdisj
      have hb1 : ∀ i ∈ b1.moves_x ∪ b1.moves_o, i ≤ 8 := by
        intro i hi
        rw [hu1, Finset.mem_insert] at hi
        rcases hi with rfl | hi
        · exact hm8
        · exact hbound i hi
      obtain ⟨h1, h2, h3⟩ := ih b1 h hd1 hb1
      refine ⟨h1, h2, ?_⟩
      rw [h3, hu1, Finset.card_insert_of_not_mem hmem, List.length_cons]
      ring

/-- Turn cell ownership into membership facts: X at `i` means `i` is in
`moves_x`. -/
lemma cell_eq_X (b : Board) (i : ℕ) :
    b.cell i = some Player.X ↔ i ∈ b.moves_x := by
  unfold Board.cell
  split_ifs <;> simp_all

/-- Turn cell ownership into membership facts: O at `i` means `i` is in
`moves_o` and not in `moves_x`. -/
lemma cell_eq_O (b : Board) (i : ℕ) :
    b.cell i = some Player.O ↔ i ∉ b.moves_x ∧ i ∈ b.moves_o := by
  unfold Board.cell
  split_ifs <;> simp_all

/-- C6: every board reachable from the empty board by legal moves has
disjoint move sets, all indices in [0, 8], the union sized by the number
of moves (hence at most 9), and any further successful move only grows
each set and preserves every cell's owner. -/
theorem reachable_board_invariants (ms : List ℕ) (b : Board)
    (h : playMoves Board.start ms = Except.ok b) :
    Disjoint b.moves_x b.moves_o ∧
      (∀ i ∈ b.moves_x ∪ b.moves_o, i ≤ 8) ∧
      (b.moves_x ∪ b.moves_o).card = ms.length ∧
      (b.moves_x ∪ b.moves_o).card ≤ 9 ∧
      (∀ m b', b.with_move m = Except.ok b' →
        b.moves_x ⊆ b'.moves_x ∧ b.moves_o ⊆ b'.moves_o ∧
        ∀ i p, b.cell i = some p → b'.cell i = some p) := by
  obtain ⟨h1, h2, h3⟩ :=
    playMoves_preserves ms Board.start b h (by simp [Board.start])
      (by simp [Board.start])
  have hcard : (b.moves_x ∪ b.moves_o).card = ms.length := by
    simpa [Board.start] using h3
  refine ⟨h1, h2, hcard, ?_, ?_⟩
  · have hsub : b.moves_x ∪ b.moves_o ⊆ Finset.range 9 := by
      intro i hi
      have := h2 i hi
      rw [Finset.mem_range]
      omega
    calc (b.moves_x ∪ b.moves_o).card ≤ (Finset.range 9).card :=
          Finset.card_le_card hsub
      _ = 9 := by simp
  · intro m b' hmb
    obtain ⟨hd', -, -, -, hsx, hso⟩ := with_move_ok_step b m b' hmb h1
    refine ⟨hsx, hso, ?_⟩
    intro i p hc
    cases p with
    | X => exact (cell_eq_X b' i).mpr (hsx ((cell_eq_X b i).mp hc))
    | O =>
      obtain ⟨hix, hio⟩ := (cell_eq_O b i).mp hc
      have hio' : i ∈ b'.moves_o := hso hio
      refine (cell_eq_O b' i).mpr ⟨?_, hio'⟩
      exact fun hix' => (Finset.disjoint_left.mp hd') hix' hio'

/-- Witness for C6 at the three-move game [0, 4, 1]. -/
theorem reachable_board_invariants_witness :
    Disjoint boardC6.moves_x boardC6.moves_o ∧
      (∀ i ∈ boardC6.moves_x ∪ boardC6.moves_o, i ≤ 8) ∧
      (boardC6.moves_x ∪ boardC6.moves_o).card = ([0, 4, 1] : List ℕ).length ∧
      (boardC6.moves_x ∪ boardC6.moves_o).card ≤ 9 ∧
      (∀ m b', boardC6.with_move m = Except.ok b' →
        boardC6.moves_x ⊆ b'.moves_x ∧ boardC6.moves_o ⊆ b'.moves_o ∧
        ∀ i p, boardC6.cell i = some p → b'.cell i = some p) :=
  reachable_board_invariants [0, 4, 1] boardC6 (by decide)

/-- C3 as amended: applying [0, 1, 2, 3, 4, 5, 6, 8, 7] from the empty
board fills all nine cells, X completes the line {2, 4, 6} (already after
the seventh move), `winner` returns X and no legal moves remain. -/
theorem full_sequence_first_wins :
    playMoves Board.start [0, 1, 2, 3, 4, 5, 6, 8, 7] = Except.ok filledBoard ∧
      ownsLine filledBoard Player.X (2, 4, 6) ∧
      filledBoard.winner = some Player.X ∧
      filledBoard.legal_moves = ∅ ∧
      filledBoard.is_active = false := by
  decide

lemma with_move_parity_step (b : Board) (m : ℕ) (b' : Board)
    (h : b.with_move m = Except.ok b')
    (hpar : (b.x_turn = true → b.moves_x.card = b.moves_o.card) ∧
      (b.x_turn = false → b.moves_x.card = b.moves_o.card + 1)) :
    (b'.x_turn = true → b'.moves_x.card = b'.moves_o.card) ∧
      (b'.x_turn = false → b'.moves_x.card = b'.moves_o.card + 1) := by
  obtain ⟨hm, hcase⟩ := with_move_ok_cases b m b' h
  obtain ⟨-, hmx, hmo⟩ := (mem_legal_moves b m).mp hm
  rcases hcase with ⟨ht, hx, ho, ht'⟩ | ⟨ht, hx, ho, ht'⟩
  · have hcx : b'.moves_x.card = b.moves_x.card + 1 := by
      rw [hx, Finset.union_comm, ← Finset.insert_eq,
        Finset.card_insert_of_not_mem hmx]
    constructor
    · intro habs
      rw [ht'] at habs
      cases habs
    · intro _
      rw [hcx, ho, hpar.1 ht]
  · have hco : b'.moves_o.card = b.moves_o.card + 1 := by
      rw [ho, Finset.union_comm, ← Finset.insert_eq,
        Finset.card_insert_of_not_mem hmo]
    constructor
    · intro _
      rw [hx, hco]
      exact hpar.2 ht
    · intro habs
      rw [ht'] at habs
      cases habs

lemma playMoves_parity (ms : List ℕ) (b0 b : Board)
    (h : playMoves b0 ms = Except.ok b)
    (hpar : (b0.x_turn = true → b0.moves_x.card = b0.moves_o.card) ∧
      (b0.x_turn = false → b0.moves_x.card = b0.moves_o.card + 1)) :
    (b.x_turn = true → b.moves_x.card = b.moves_o.card) ∧
      (b.x_turn = false → b.moves_x.card = b.moves_o.card + 1) := by
  induction ms generalizing b0 with
  | nil =>
    rw [playMoves] at h
    obtain rfl : b0 = b := by injection h
    exact hpar
  | cons m ms ih =>
    rw [playMoves] at h
    cases hwm : b0.with_move m with
    | error e =>
      rw [hwm] at h
      cases h
    | ok b1 =>
      rw [hwm] at h
      exact ih b1 h (with_move_parity_step b0 m b1 hwm hpar)

lemma parity_iff_of_imp (b : Board)
    (h1 : b.x_turn = true → b.moves_x.card = b.moves_o.card)
    (h2 : b.x_turn = false → b.moves_x.card = b.moves_o.card + 1) :
    (b.x_turn = true ↔ b.moves_x.card = b.moves_o.card) ∧
      (b.x_turn = false ↔ b.moves_x.card = b.moves_o.card + 1) := by
  cases hx : b.x_turn
  · exact ⟨⟨fun habs => absurd habs (by decide),
        fun hcc => absurd (h2 hx) (by omega)⟩,
      ⟨fun _ => h2 hx, fun _ => rfl⟩⟩
  · exact ⟨⟨fun _ => h1 hx, fun _ => rfl⟩,
      ⟨fun habs => absurd habs (by decide),
        fun hcc => absurd (h1 hx) (by omega)⟩⟩

/-- C10: on every board reachable from the empty board, the turn flag is
in lockstep with the move counts — `x_turn` is true exactly when the two
counts are equal and false exactly when X leads by one — and every
further successful move preserves this parity. -/
theorem turn_parity_invariant (ms : List ℕ) (b : Board)
    (h : playMoves Board.start ms = Except.ok b) :
    ((b.x_turn = true ↔ b.moves_x.card = b.moves_o.card) ∧
        (b.x_turn = false ↔ b.moves_x.card = b.moves_o.card + 1)) ∧
      (∀ m b', b.with_move m = Except.ok b' →
        (b'.x_turn = true ↔ b'.moves_x.card = b'.moves_o.card) ∧
          (b'.x_turn = false ↔ b'.moves_x.card = b'.moves_o.card + 1)) := by
  have hpar := playMoves_parity ms Board.start b h
    ⟨fun _ => rfl, fun hf => absurd hf (by decide)⟩
  refine ⟨parity_iff_of_imp b hpar.1 hpar.2, ?_⟩
  intro m b' hmb
  have hpar' := with_move_parity_step b m b' hmb hpar
  exact parity_iff_of_imp b' hpar'.1 hpar'.2

/-- Witness for C10 at the three-move game [0, 4, 1]. -/
theorem turn_parity_invariant_witness :
    ((boardC6.x_turn = true ↔ boardC6.moves_x.card = boardC6.moves_o.card) ∧
        (boardC6.x_turn = false ↔ boardC6.moves_x.card = boardC6.moves_o.card + 1)) ∧
      (∀ m b', boardC6.with_move m = Except.ok b' →
        (b'.x_turn = true ↔ b'.moves_x.card = b'.moves_o.card) ∧
          (b'.x_turn = false ↔ b'.moves_x.card = b'.moves_o.card + 1)) :=
  turn_parity_invariant [0, 4, 1] boardC6 (by decide)

end TicTacToe
